import Mathlib

/-!
# Verification of the WhatsApp chat viewer core (parser + storage + store service)

Shallow embedding of `src/lib/database.ts` (DatabaseService, WhatsAppParser)
and `src/lib/stores.ts` (StoreService).  JavaScript regular expressions are
embedded as explicit character-list matchers, JS `Date` values created by
`new Date(y, m, d, h, min)` as the tuple of constructor arguments, and the
`Date` values used by the storage layer (which are only ever compared and
copied) as integer epoch milliseconds.  IndexedDB object stores are embedded
as lists of records keyed by their `id` field; `put` is upsert-by-key.
-/

/-- JS regex `.` (no `s` flag): any character except a line terminator
(`\n`, `\r`, U+2028, U+2029). -/
def isDot (c : Char) : Bool :=
  !(c = '\n' || c = '\r' || c = Char.ofNat 0x2028 || c = Char.ofNat 0x2029)

/-- JS regex `\s` / `String.prototype.trim` whitespace set. -/
def isWs (c : Char) : Bool :=
  c = ' ' || c = '\t' || c = '\n' || c = Char.ofNat 11 || c = Char.ofNat 12 || c = '\r' ||
  c = Char.ofNat 0x00A0 || c = Char.ofNat 0x1680 ||
  (Char.ofNat 0x2000 ≤ c && c ≤ Char.ofNat 0x200A) ||
  c = Char.ofNat 0x2028 || c = Char.ofNat 0x2029 ||
  c = Char.ofNat 0x202F || c = Char.ofNat 0x205F ||
  c = Char.ofNat 0x3000 || c = Char.ofNat 0xFEFF

/-- `String.prototype.trim()` on a character list. -/
def jsTrim (cs : List Char) : List Char :=
  ((cs.dropWhile isWs).reverse.dropWhile isWs).reverse

/-- `line.trim()` on a `String`. -/
def jsTrimS (s : String) : String :=
  (jsTrim s.toList).asString

/-- Maximal digit run (`\d*`) of a quantified digit atom: returns the run and
the rest, succeeding iff the run length lies in `[lo, hi]`.  This is
equivalent to the backtracking semantics of `\d{lo,hi}` whenever the
following regex atom cannot match a digit (true at every use site below). -/
def eatDigits (lo hi : Nat) (cs : List Char) : Option (List Char × List Char) :=
  let d := cs.takeWhile Char.isDigit
  let r := cs.dropWhile Char.isDigit
  if lo ≤ d.length ∧ d.length ≤ hi then some (d, r) else none

/-- Match one literal character. -/
def eatChar (c : Char) : List Char → Option (List Char)
  | x :: rest => if x = c then some rest else none
  | [] => none

/-- Match one `\s` character. -/
def eatWs : List Char → Option (List Char)
  | x :: rest => if isWs x then some rest else none
  | [] => none

/-- The common head of `MESSAGE_REGEX` and `SYSTEM_MESSAGE_REGEX`:
`^(\d{1,2}\/\d{1,2}\/\d{2,4}),\s(\d{1,2}:\d{2})\s-\s` — returns the date
capture, the time capture, and the remaining characters. -/
def dtHead (cs : List Char) : Option (String × String × List Char) :=
  (eatDigits 1 2 cs).bind fun p1 =>
  (eatChar '/' p1.2).bind fun r2 =>
  (eatDigits 1 2 r2).bind fun p2 =>
  (eatChar '/' p2.2).bind fun r4 =>
  (eatDigits 2 4 r4).bind fun p3 =>
  (eatChar ',' p3.2).bind fun r6 =>
  (eatWs r6).bind fun r7 =>
  (eatDigits 1 2 r7).bind fun p4 =>
  (eatChar ':' p4.2).bind fun r9 =>
  (eatDigits 2 2 r9).bind fun p5 =>
  (eatWs p5.2).bind fun r11 =>
  (eatChar '-' r11).bind fun r12 =>
  (eatWs r12).bind fun r13 =>
  some ((p1.1 ++ '/' :: p2.1 ++ '/' :: p3.1).asString,
        (p4.1 ++ ':' :: p5.1).asString, r13)

/-- Can `:\s` start here, followed by an all-`.` suffix (the end of the lazy
sender group `(.+?):\s(.*)$`)? -/
def colonSplitHere (l : List Char) : Bool :=
  match l with
  | w :: r => isWs w && r.all isDot
  | [] => false

/-- Scan for the lazy match of `(.+?):\s(.*)$` after at least one sender
character has been consumed: at each position, first try to end the sender
group here, else consume one `.` character. -/
def senderScan : List Char → Option (List Char × List Char)
  | [] => none
  | c :: rest =>
    if c = ':' && colonSplitHere rest then
      some ([], rest.drop 1)
    else if isDot c then
      (senderScan rest).map (fun p => (c :: p.1, p.2))
    else none

/-- Match `(.+?):\s(.*)$` (sender capture, content capture).  The first
character is consumed unconditionally since `.+?` needs at least one. -/
def senderSplit : List Char → Option (List Char × List Char)
  | [] => none
  | c :: rest =>
    if isDot c then (senderScan rest).map (fun p => (c :: p.1, p.2)) else none

/-- `MESSAGE_REGEX = /^(\d{1,2}\/\d{1,2}\/\d{2,4}),\s(\d{1,2}:\d{2})\s-\s(.+?):\s(.*)$/`:
returns (date, time, raw sender, raw content) captures. -/
def messageMatch (cs : List Char) : Option (String × String × List Char × List Char) :=
  match dtHead cs with
  | none => none
  | some (d, t, rest) =>
    match senderSplit rest with
    | none => none
    | some (sender, content) => some (d, t, sender, content)

/-- `SYSTEM_MESSAGE_REGEX = /^(\d{1,2}\/\d{1,2}\/\d{2,4}),\s(\d{1,2}:\d{2})\s-\s(.*)$/`:
returns (date, time, raw content) captures. -/
def systemMatch (cs : List Char) : Option (String × String × List Char) :=
  match dtHead cs with
  | none => none
  | some (d, t, rest) => if rest.all isDot then some (d, t, rest) else none

/-- Decimal digits of a natural number, fuel-indexed so that it reduces by
`decide`/`rfl`; `natDec` below supplies sufficient fuel. -/
def natDecAux : Nat → Nat → List Char
  | 0, _ => []
  | fuel + 1, n =>
    if n < 10 then [Nat.digitChar n]
    else natDecAux fuel (n / 10) ++ [Nat.digitChar (n % 10)]

/-- JS `${i}` decimal rendering of a natural number. -/
def natDec (n : Nat) : List Char := natDecAux (n + 1) n

/-- `parseInt(s, 10)` on a (non-empty, all-digit) capture. -/
def decVal (cs : List Char) : Nat :=
  cs.foldl (fun a c => 10 * a + (c.toNat - 48)) 0

/-- The arguments handed to `new Date(fullYear, month - 1, day, hours,
minutes)`.  JS normalizes out-of-range fields; no claim depends on the
normalized instant, so the constructor-argument tuple is the embedding. -/
structure DateTime where
  year : Int
  monthIdx : Int
  day : Int
  hour : Int
  minute : Int
deriving DecidableEq, Repr

/-- JS `s.split(sep)` on a character list. -/
def splitSep (sep : Char) : List Char → List (List Char)
  | [] => [[]]
  | c :: rest =>
    if c = sep then [] :: splitSep sep rest
    else
      match splitSep sep rest with
      | [] => [[c]]  -- unreachable: splitSep never returns []
      | l :: ls => (c :: l) :: ls

/-- `WhatsAppParser.parseDateTime`: split the captures on `/` and `:`,
`parseInt` each piece, window two-digit years. -/
def parseDateTime (dateStr timeStr : String) : DateTime :=
  match splitSep '/' dateStr.toList, splitSep ':' timeStr.toList with
  | [m, d, y], [hh, mm] =>
    let month := decVal m
    let day := decVal d
    let year := decVal y
    let hours := decVal hh
    let minutes := decVal mm
    let fullYear := if year < 100 then (if year > 50 then 1900 + year else 2000 + year) else year
    { year := fullYear, monthIdx := (month : Int) - 1, day := day, hour := hours, minute := minutes }
  | _, _ => { year := 0, monthIdx := 0, day := 0, hour := 0, minute := 0 }  -- unreachable from the matchers

/-- `sender.replace(/^~\s/, '')`: strip one leading `~` + whitespace pair. -/
def stripTilde (cs : List Char) : List Char :=
  match cs with
  | '~' :: w :: rest => if isWs w then rest else cs
  | _ => cs

/-- A parsed message (`ParsedMessage` in `parser.ts`). -/
structure ParsedMessage where
  timestamp : DateTime
  sender : String
  content : String
deriving DecidableEq, Repr

/-- Chat metadata (`ChatMetadata` in `parser.ts`). -/
structure ChatMetadata where
  name : String
  participants : List String
  messageCount : Nat
  drStart : DateTime
  drEnd : DateTime
deriving DecidableEq, Repr

/-- JS `Set.add`: insert if absent, preserving first-insertion order. -/
def addToSet (s : String) (l : List String) : List String :=
  if s ∈ l then l else l ++ [s]

/-- Case-insensitive matching is embedded by ASCII lowering (the keywords
involved are all ASCII). -/
def toLowerL (cs : List Char) : List Char := cs.map Char.toLower

/-- Does `pat` occur as a prefix of `cs`? -/
def leadsWith : List Char → List Char → Bool
  | [], _ => true
  | _ :: _, [] => false
  | p :: ps, c :: cs => p == c && leadsWith ps cs

/-- Does `pat` occur anywhere in `cs`? -/
def occursIn (pat : List Char) : List Char → Bool
  | [] => leadsWith pat []
  | c :: rest => leadsWith pat (c :: rest) || occursIn pat rest

/-- Gap scan for `changed.*subject` (after `changed`): `subject` must occur
later with only `.`-matchable characters in between. -/
def dotGapSubject : List Char → Bool
  | [] => false
  | c :: rest =>
    leadsWith "subject".toList (c :: rest) || (isDot c && dotGapSubject rest)

/-- `changed.*subject` alternative of the group-name pattern (on lowered text). -/
def changedScan : List Char → Bool
  | [] => false
  | c :: rest =>
    (leadsWith "changed".toList (c :: rest) && dotGapSubject ((c :: rest).drop 7))
      || changedScan rest

/-- `groupNamePattern = /added|created|changed.*subject|group/i` as a test. -/
def groupNameTest (cs : List Char) : Bool :=
  let l := toLowerL cs
  occursIn "added".toList l || occursIn "created".toList l ||
    changedScan l || occursIn "group".toList l

/-- Is `c` one of the quote characters of the class `["']`? -/
def isQuote (c : Char) : Bool := c == '"' || c == '\''

/-- `([^"']+)["']` at the current position: maximal run of non-quote
characters, non-empty and followed by a closing quote. -/
def quoteCapture (cs : List Char) : Option (List Char) :=
  let r := cs.takeWhile (fun c => !isQuote c)
  if 1 ≤ r.length then
    match cs.drop r.length with
    | q :: _ => if isQuote q then some r else none
    | [] => none
  else none

/-- Lazy gap `.*?["']([^"']+)["']`: scan forward over `.`-matchable
characters; at each quote try the capture, else keep scanning. -/
def quoteScan : List Char → Option (List Char)
  | [] => none
  | c :: rest =>
    if isQuote c then
      match quoteCapture rest with
      | some r => some r
      | none => if isDot c then quoteScan rest else none
    else if isDot c then quoteScan rest else none

/-- `content.match(/subject.*?["']([^"']+)["']/i)`, capture group 1: leftmost
occurrence of `subject` (case-insensitive) from which a quoted run can be
reached; on failure resume at the next position. -/
def subjectScan : List Char → Option (List Char)
  | [] => none
  | c :: rest =>
    if leadsWith "subject".toList (toLowerL (c :: rest)) then
      match quoteScan ((c :: rest).drop 7) with
      | some r => some r
      | none => subjectScan rest
    else subjectScan rest

/-- The group-name search of `generateChatName`: walk the first messages and
return the first extracted quoted subject. -/
def findSubjectName : List ParsedMessage → Option String
  | [] => none
  | m :: rest =>
    if groupNameTest m.content.toList then
      match subjectScan m.content.toList with
      | some nm => some nm.asString
      | none => findSubjectName rest
    else findSubjectName rest

/-- `WhatsAppParser.generateChatName`. -/
def generateChatName (participants : List String) (messages : List ParsedMessage) : String :=
  if participants.length = 0 then "Unknown Chat"
  else if participants.length = 1 then participants.headD "" ++ " (Self Chat)"
  else if participants.length = 2 then String.intercalate " & " participants
  else
    match findSubjectName (messages.take 10) with
    | some nm => nm
    | none =>
      if participants.length ≤ 4 then String.intercalate ", " participants
      else
        String.intercalate ", " (participants.take 3) ++ " and " ++
          (natDec (participants.length - 3)).asString ++ " others"

/-- The loop state of `WhatsAppParser.parse`. -/
structure ParserState where
  messages : List ParsedMessage
  participantSet : List String
  current : Option ParsedMessage
deriving DecidableEq, Repr

/-- One iteration of the line loop of `WhatsAppParser.parse`. -/
def parseStep (st : ParserState) (line : List Char) : ParserState :=
  match messageMatch line with
  | some (date, time, sender, content) =>
    let msgs := match st.current with
      | some m => st.messages ++ [m]
      | none => st.messages
    let cleanSender := (jsTrim (stripTilde sender)).asString
    { messages := msgs,
      participantSet := addToSet cleanSender st.participantSet,
      current := some { timestamp := parseDateTime date time,
                        sender := cleanSender,
                        content := (jsTrim content).asString } }
  | none =>
    match systemMatch line with
    | some (date, time, content) =>
      let msgs := match st.current with
        | some m => st.messages ++ [m]
        | none => st.messages
      { messages := msgs ++ [{ timestamp := parseDateTime date time,
                               sender := "System",
                               content := (jsTrim content).asString }],
        participantSet := st.participantSet,
        current := none }
    | none =>
      match st.current with
      | some m =>
        if jsTrim line ≠ [] then
          { st with current := some { m with content := m.content ++ "\n" ++ (jsTrim line).asString } }
        else st
      | none => st

/-- `chatContent.split('\n')` on a character list. -/
def splitNL : List Char → List (List Char) := splitSep '\n'

/-- The non-empty lines fed to the parser loop / validator:
`split('\n').filter(line => line.trim())`. -/
def contentLines (cs : List Char) : List (List Char) :=
  (splitNL cs).filter (fun l => jsTrim l ≠ [])

/-- Result of `WhatsAppParser.parse`. -/
structure ParseResult where
  messages : List ParsedMessage
  metadata : ChatMetadata
deriving DecidableEq, Repr

/-- `WhatsAppParser.parse`.  `now` embeds the `new Date()` default used for
the date range of an empty parse. -/
def parse (now : DateTime) (chatContent : String) : ParseResult :=
  let lines := contentLines chatContent.toList
  let st := lines.foldl parseStep { messages := [], participantSet := [], current := none }
  let messages := match st.current with
    | some m => st.messages ++ [m]
    | none => st.messages
  let participants := st.participantSet.filter (fun p => p ≠ "System")
  let chatName := generateChatName participants messages
  { messages := messages,
    metadata :=
      { name := chatName,
        participants := participants,
        messageCount := messages.length,
        drStart := match messages.head? with | some m => m.timestamp | none => now,
        drEnd := match messages.getLast? with | some m => m.timestamp | none => now } }

/-- The error entries pushed by `WhatsAppParser.validate`, one constructor
per `errors.push` site; the ratio detail carries the raw counts the message
is formatted from. -/
inductive VError where
  | contentEmpty                        -- "Content is empty"
  | noValidLines                        -- "No valid lines found"
  | notExport                           -- "Content does not appear to be a WhatsApp chat export"
  | ratioDetail (valid total : Nat)     -- "Only N% of lines match expected format"
  | noValidFormat                       -- "No valid message format found"
  | formatHint                          -- "Expected format: ..."
deriving DecidableEq, Repr

/-- Result of `WhatsAppParser.validate`. -/
structure ValidationResult where
  isValid : Bool
  errors : List VError
deriving DecidableEq, Repr

/-- The sampling loop of `validate`: over the first `min 50 lines.length`
non-empty lines, count (total lines, lines matching either grammar). -/
def sampleCounts (lines : List (List Char)) : Nat × Nat :=
  (lines.take (min 50 lines.length)).foldl
    (fun p l =>
      if jsTrim l ≠ [] then
        (p.1 + 1, p.2 + (if (messageMatch l).isSome || (systemMatch l).isSome then 1 else 0))
      else p)
    (0, 0)

/-- `WhatsAppParser.validate`.  The float test `validRatio < 0.3` is embedded
as `10 * valid < 3 * total`, which agrees with the IEEE comparison for all
`valid ≤ total ≤ 50` (the rational gap to 3/10 is at least 1/500, far above
double rounding error, and 3/10 itself rounds to the literal `0.3`). -/
def validate (content : String) : ValidationResult :=
  if jsTrim content.toList = [] then
    { isValid := false, errors := [VError.contentEmpty] }
  else
    let lines := contentLines content.toList
    if lines.length = 0 then
      { isValid := false, errors := [VError.noValidLines] }
    else
      let counts := sampleCounts lines
      let total := counts.1
      let valid := counts.2
      let errors :=
        (if 10 * valid < 3 * total then
          [VError.notExport, VError.ratioDetail valid total] else []) ++
        (if valid = 0 then [VError.noValidFormat, VError.formatHint] else [])
      { isValid := errors.isEmpty, errors := errors }

/-- A `messages` store record (`ChatViewerDB['messages']['value']`);
timestamps are epoch milliseconds (what `Date` comparison and copying use). -/
structure MessageRecord where
  id : String
  chatId : String
  timestamp : Int
  sender : String
  content : String
  messageIndex : Nat
deriving DecidableEq, Repr

/-- A `chats` store record. -/
structure ChatRecord where
  id : String
  name : String
  participants : List String
  createdAt : Int
  lastMessageAt : Int
  messageCount : Nat
  rawContent : String
deriving DecidableEq, Repr

/-- A `bookmarks` store record. -/
structure BookmarkRecord where
  id : String
  messageId : String
  chatId : String
  createdAt : Int
  note : Option String
deriving DecidableEq, Repr

/-- The three IndexedDB object stores, as record lists keyed by `id`. -/
structure DB where
  chats : List ChatRecord
  messages : List MessageRecord
  bookmarks : List BookmarkRecord
deriving DecidableEq, Repr

/-- IndexedDB `put` on the chats store: replace the record with the same key
if present, else insert. -/
def putChat (c : ChatRecord) (l : List ChatRecord) : List ChatRecord :=
  if l.any (fun x => x.id == c.id) then
    l.map (fun x => if x.id == c.id then c else x)
  else l ++ [c]

/-- IndexedDB `put` on the messages store. -/
def putMsg (m : MessageRecord) (l : List MessageRecord) : List MessageRecord :=
  if l.any (fun x => x.id == m.id) then
    l.map (fun x => if x.id == m.id then m else x)
  else l ++ [m]

/-- An element of the `messages` argument of `storeChat` (a parsed message,
with its timestamp as epoch milliseconds). -/
structure InputMessage where
  timestamp : Int
  sender : String
  content : String
deriving DecidableEq, Repr

/-- The derived message id `` `${id}-${i}` ``. -/
def mkMsgId (chatId : String) (i : Nat) : String :=
  chatId ++ "-" ++ (natDec i).asString

/-- The message records written by the `storeChat` loop, starting at
position `k`. -/
def mkMessageRecords (chatId : String) : Nat → List InputMessage → List MessageRecord
  | _, [] => []
  | i, m :: rest =>
    { id := mkMsgId chatId i, chatId := chatId, timestamp := m.timestamp,
      sender := m.sender, content := m.content, messageIndex := i }
      :: mkMessageRecords chatId (i + 1) rest

/-- `DatabaseService.storeChat`: one transaction writing the chat record and
every message record; `now` embeds the `new Date()` import time. -/
def storeChat (now : Int) (id name : String) (participants : List String)
    (msgs : List InputMessage) (rawContent : String) (db : DB) : DB :=
  let chat : ChatRecord :=
    { id := id, name := name, participants := participants, createdAt := now,
      lastMessageAt := match msgs.getLast? with
        | some m => m.timestamp
        | none => now,
      messageCount := msgs.length, rawContent := rawContent }
  { chats := putChat chat db.chats,
    messages := (mkMessageRecords id 0 msgs).foldl (fun acc r => putMsg r acc) db.messages,
    bookmarks := db.bookmarks }

/-- `DatabaseService.getChat`: primary-key read. -/
def getChat (db : DB) (chatId : String) : Option ChatRecord :=
  db.chats.find? (fun c => c.id == chatId)

/-- `DatabaseService.getAllMessagesForChat`: `by-chat` index scan.  (The
index's key ordering is not modelled; no claim depends on the order of this
unpaginated read.) -/
def getAllMessagesForChat (db : DB) (chatId : String) : List MessageRecord :=
  db.messages.filter (fun m => m.chatId == chatId)

/-- `DatabaseService.getBookmarksForChat`: `by-chat` index scan. -/
def getBookmarksForChat (db : DB) (chatId : String) : List BookmarkRecord :=
  db.bookmarks.filter (fun b => b.chatId == chatId)

/-- Delete a list of primary keys from the messages store, one `delete` per
key, as the `deleteChat` loop does. -/
def deleteMsgKeys (keys : List String) (l : List MessageRecord) : List MessageRecord :=
  keys.foldl (fun acc k => acc.filter (fun m => m.id ≠ k)) l

/-- Delete a list of primary keys from the bookmarks store. -/
def deleteBmKeys (keys : List String) (l : List BookmarkRecord) : List BookmarkRecord :=
  keys.foldl (fun acc k => acc.filter (fun b => b.id ≠ k)) l

/-- `DatabaseService.deleteChat`: one transaction deleting the chat record,
then every message key found via the `by-chat` index, then every bookmark
key found via the `by-chat` index. -/
def deleteChat (chatId : String) (db : DB) : DB :=
  let chats := db.chats.filter (fun c => c.id ≠ chatId)
  let msgKeys := (db.messages.filter (fun m => m.chatId == chatId)).map (fun m => m.id)
  let messages := deleteMsgKeys msgKeys db.messages
  let bmKeys := (db.bookmarks.filter (fun b => b.chatId == chatId)).map (fun b => b.id)
  let bookmarks := deleteBmKeys bmKeys db.bookmarks
  { chats := chats, messages := messages, bookmarks := bookmarks }

/-- Insert into a list sorted by `messageIndex` (the `by-chat-index`
ordering within one chat). -/
def insertByIdx (m : MessageRecord) : List MessageRecord → List MessageRecord
  | [] => [m]
  | n :: rest =>
    if m.messageIndex ≤ n.messageIndex then m :: n :: rest
    else n :: insertByIdx m rest

/-- Sort by `messageIndex` (the order in which the `by-chat-index` cursor
visits one chat's records). -/
def sortByIdx : List MessageRecord → List MessageRecord
  | [] => []
  | m :: rest => insertByIdx m (sortByIdx rest)

/-- The `getMessages` cursor loop:
`while (cursor && count < limit && iterations < MAX_ITERATIONS)`. -/
def collectLoop (limit : Nat) : List MessageRecord → Nat → Nat → List MessageRecord
  | [], _, _ => []
  | m :: rest, count, iters =>
    if count < limit ∧ iters < 10000 then
      m :: collectLoop limit rest (count + 1) (iters + 1)
    else []

/-- `DatabaseService.getMessages`: cursor over the `by-chat-index` composite
index bounded to `[chatId, offset]..[chatId, +Infinity]` — i.e. this chat's
records with `messageIndex ≥ offset` in index order — collecting while
`count < limit` and `iterations < MAX_ITERATIONS (10000)`. -/
def getMessages (db : DB) (chatId : String) (limit offset : Nat) : List MessageRecord :=
  let inRange := (sortByIdx (db.messages.filter (fun m => m.chatId == chatId))).filter
    (fun m => offset ≤ m.messageIndex)
  collectLoop limit inRange 0 0

/-- The in-memory state of `StoreService` (message cache, loading-state set,
the `messages` Svelte store, and the app-state fields the claims touch). -/
structure StoreState where
  messageCache : List (String × List MessageRecord)
  loadingStates : List String
  messagesStore : List MessageRecord
  currentChatId : Option String
  isLoading : Bool
deriving DecidableEq, Repr

/-- `messageCache.get`. -/
def cacheGet (k : String) (c : List (String × List MessageRecord)) : Option (List MessageRecord) :=
  (c.find? (fun p => p.1 == k)).map (fun p => p.2)

/-- `messageCache.set`. -/
def cacheSet (k : String) (v : List MessageRecord)
    (c : List (String × List MessageRecord)) : List (String × List MessageRecord) :=
  if c.any (fun p => p.1 == k) then
    c.map (fun p => if p.1 == k then (k, v) else p)
  else c ++ [(k, v)]

/-- `messageCache.delete`. -/
def cacheDel (k : String) (c : List (String × List MessageRecord)) :
    List (String × List MessageRecord) :=
  c.filter (fun p => p.1 ≠ k)

/-- `StoreService.loadMessages`.  `fetchResult` embeds the outcome of
`Promise.race([dbService.getAllMessagesForChat(chatId), timeout])`: `ok` a
message list, `error` a storage failure or the 10 s timeout.  The returned
`Except String Unit` is the settlement of the promise `loadMessages` hands
its caller. -/
def loadMessages (chatId : String) (forceRefresh : Bool)
    (fetchResult : Except String (List MessageRecord)) (st : StoreState) :
    StoreState × Except String Unit :=
  if st.loadingStates.contains chatId then
    (st, Except.ok ())  -- duplicate request: return without loading
  else
    match cacheGet chatId st.messageCache, forceRefresh with
    | some cached, false =>
      ({ st with messagesStore := cached }, Except.ok ())
    | _, _ =>
      let st1 := { st with loadingStates := chatId :: st.loadingStates, isLoading := true }
      let st2 := match fetchResult with
        | Except.ok list =>
          { st1 with messageCache := cacheSet chatId list st1.messageCache,
                     messagesStore := list }
        | Except.error _ =>
          -- catch: log, clear the cache entry; the error is NOT rethrown
          { st1 with messageCache := cacheDel chatId st1.messageCache }
      ({ st2 with loadingStates := st2.loadingStates.filter (fun x => x ≠ chatId),
                  isLoading := false },
       Except.ok ())

/-- `StoreService.switchToChat`: set the active-chat pointer, then await
`loadMessages` (with default `forceRefresh = false`). -/
def switchToChat (chatId : String) (fetchResult : Except String (List MessageRecord))
    (st : StoreState) : StoreState × Except String Unit :=
  loadMessages chatId false fetchResult { st with currentChatId := some chatId }

/-- `participantStats[sender] = (participantStats[sender] || 0) + 1` on an
insertion-ordered association list. -/
def bumpTally (s : String) : List (String × Nat) → List (String × Nat)
  | [] => [(s, 1)]
  | (k, v) :: rest =>
    if k = s then (k, v + 1) :: rest else (k, v) :: bumpTally s rest

/-- Result of `StoreService.getChatStats`. -/
structure ChatStats where
  messageCount : Nat
  participantStats : List (String × Nat)
  drStart : Int
  drEnd : Int
  averageMessagesPerDay : Rat
deriving DecidableEq, Repr

/-- `StoreService.getChatStats` applied to the fetched message list; `now`
embeds `new Date()` (the `startDate` accumulator's initial value) and the
`endDate` accumulator starts at `new Date(0)` (the epoch). -/
def getChatStats (now : Int) (messageList : List MessageRecord) : ChatStats :=
  let acc := messageList.foldl
    (fun (a : List (String × Nat) × Int × Int) m =>
      let stats := bumpTally m.sender a.1
      let s := if m.timestamp < a.2.1 then m.timestamp else a.2.1
      let e := if m.timestamp > a.2.2 then m.timestamp else a.2.2
      (stats, s, e))
    ([], now, 0)
  let daysDiff : Rat := max 1 (((acc.2.2 - acc.2.1 : Int) : Rat) / 86400000)
  { messageCount := messageList.length,
    participantStats := acc.1,
    drStart := acc.2.1,
    drEnd := acc.2.2,
    averageMessagesPerDay := (messageList.length : Rat) / daysDiff }

/-- An empty database. -/
def emptyDB : DB := { chats := [], messages := [], bookmarks := [] }

/-- Three parsed input messages, used as a concrete `storeChat` payload. -/
def in3 : List InputMessage :=
  [{ timestamp := 10, sender := "A", content := "x" },
   { timestamp := 20, sender := "B", content := "y" },
   { timestamp := 30, sender := "A", content := "z" }]

/-- The database after importing `in3` as chat `"c"` at time 5. -/
def db3 : DB := storeChat 5 "c" "nm" ["A", "B"] in3 "raw" emptyDB

/-- A database holding one chat (`"c"`) with 10001 stored messages at dense
indexes 0..10000. -/
def bigDb : DB :=
  { chats := [],
    messages := (List.range 10001).map (fun i =>
      { id := mkMsgId "c" i, chatId := "c", timestamp := (i : Int), sender := "s",
        content := "m", messageIndex := i }),
    bookmarks := [] }

/-- A database with two chats (messages and bookmarks for each). -/
def dbDel : DB :=
  { chats :=
      [{ id := "a", name := "A", participants := [], createdAt := 0, lastMessageAt := 1,
         messageCount := 1, rawContent := "ra" },
       { id := "b", name := "B", participants := [], createdAt := 0, lastMessageAt := 1,
         messageCount := 1, rawContent := "rb" }],
    messages :=
      [{ id := "a-0", chatId := "a", timestamp := 1, sender := "s", content := "x", messageIndex := 0 },
       { id := "b-0", chatId := "b", timestamp := 1, sender := "s", content := "y", messageIndex := 0 }],
    bookmarks :=
      [{ id := "bm1", messageId := "a-0", chatId := "a", createdAt := 2, note := none },
       { id := "bm2", messageId := "b-0", chatId := "b", createdAt := 3, note := none }] }

/-- A store state with a (stale) cached message list for chat `"c"`. -/
def stCached : StoreState :=
  { messageCache := [("c", [{ id := "c-0", chatId := "c", timestamp := 1, sender := "s",
                              content := "old", messageIndex := 0 }])],
    loadingStates := [], messagesStore := [], currentChatId := none, isLoading := false }

/-- A fresh store state (nothing cached, nothing loading, no active chat). -/
def stFresh : StoreState :=
  { messageCache := [], loadingStates := [], messagesStore := [],
    currentChatId := none, isLoading := false }

/-- The line that matches `MESSAGE_REGEX` but not `SYSTEM_MESSAGE_REGEX`: the
trailing carriage return is matched by the `\s` of `(.+?):\s` but is not
matchable by the `.` of `(.*)$`. -/
def cexLine : List Char := "1/1/24, 1:00 - A:\r".toList

/-- A continuation line (matches neither grammar). -/
def contLine : List Char := "second line".toList

/-- An open (current) message. -/
def contMsg : ParsedMessage :=
  { timestamp := ⟨2024, 1, 24, 21, 56⟩, sender := "Alice", content := "Hello there!" }

/-- A parser state with an open message. -/
def contState : ParserState :=
  { messages := [], participantSet := ["Alice"], current := some contMsg }

/-- The spec's invalid-input scenario for `validate`. -/
def junkText : String := "random unrelated text\nmore junk"

theorem decVal_append (l : List Char) (c : Char) :
    decVal (l ++ [c]) = 10 * decVal l + (c.toNat - 48) := by
  simp [decVal, List.foldl_append]

theorem digitChar_toNat (n : Nat) (h : n < 10) : (Nat.digitChar n).toNat = 48 + n := by
  interval_cases n <;> rfl

theorem decVal_natDecAux (fuel : Nat) : ∀ n, n < fuel → decVal (natDecAux fuel n) = n := by
  induction fuel with
  | zero => intro n h; omega
  | succ fuel ih =>
    intro n h
    rw [natDecAux]
    by_cases h10 : n < 10
    · rw [if_pos h10]
      simp [decVal, digitChar_toNat n h10]
    · have hdiv : n / 10 < n := Nat.div_lt_self (by omega) (by omega)
      rw [if_neg h10, decVal_append, ih (n / 10) (by omega),
        digitChar_toNat (n % 10) (by omega)]
      omega

theorem natDec_inj {a b : Nat} (h : natDec a = natDec b) : a = b := by
  have h1 : decVal (natDec a) = a := decVal_natDecAux (a + 1) a (Nat.lt_succ_self a)
  have h2 : decVal (natDec b) = b := decVal_natDecAux (b + 1) b (Nat.lt_succ_self b)
  rw [← h1, ← h2, h]

theorem asString_inj {l1 l2 : List Char} (h : l1.asString = l2.asString) : l1 = l2 := by
  have hd := congrArg String.data h
  simpa using hd

theorem mkMsgId_injective (c : String) : Function.Injective (mkMsgId c) := by
  intro i j h
  unfold mkMsgId at h
  have hd := congrArg String.data h
  simp at hd
  exact natDec_inj hd

theorem eatDigits_suffix {lo hi : Nat} {cs : List Char} {p : List Char × List Char}
    (h : eatDigits lo hi cs = some p) : p.2 <:+ cs := by
  simp only [eatDigits] at h
  split at h
  · cases h; exact List.dropWhile_suffix _
  · exact absurd h (by simp)

theorem eatChar_suffix {c : Char} {cs r : List Char} (h : eatChar c cs = some r) :
    r <:+ cs := by
  cases cs with
  | nil => simp [eatChar] at h
  | cons x rest =>
    simp only [eatChar] at h
    split at h
    · cases h; exact List.suffix_cons _ _
    · exact absurd h (by simp)

theorem eatWs_suffix {cs r : List Char} (h : eatWs cs = some r) : r <:+ cs := by
  cases cs with
  | nil => simp [eatWs] at h
  | cons x rest =>
    simp only [eatWs] at h
    split at h
    · cases h; exact List.suffix_cons _ _
    · exact absurd h (by simp)

theorem dtHead_suffix {cs : List Char} {d t : String} {r : List Char}
    (h : dtHead cs = some (d, t, r)) : r <:+ cs := by
  simp only [dtHead, Option.bind_eq_some] at h
  obtain ⟨p1, h1, r2, h2, p2, h3, r4, h4, p3, h5, r6, h6, r7, h7, p4, h8, r9, h9,
    p5, h10, r11, h11, r12, h12, r13, h13, hfin⟩ := h
  simp only [Option.some.injEq, Prod.mk.injEq] at hfin
  obtain ⟨-, -, hr⟩ := hfin
  subst hr
  exact (eatWs_suffix h13).trans ((eatChar_suffix h12).trans ((eatWs_suffix h11).trans
    ((eatDigits_suffix h10).trans ((eatChar_suffix h9).trans ((eatDigits_suffix h8).trans
    ((eatWs_suffix h7).trans ((eatChar_suffix h6).trans ((eatDigits_suffix h5).trans
    ((eatChar_suffix h4).trans ((eatDigits_suffix h3).trans ((eatChar_suffix h2).trans
    (eatDigits_suffix h1))))))))))))

/-- C9 (counterexample): the line `"1/1/24, 1:00 - A:\r"` matches
`MESSAGE_REGEX` (its `\s` after the sender's colon matches the carriage
return) but not `SYSTEM_MESSAGE_REGEX` (whose `(.*)$` cannot match the
carriage return), so the system grammar does not subsume the attributed
grammar. -/
theorem message_regex_not_subsumed_cex :
    (messageMatch cexLine).isSome = true ∧ (systemMatch cexLine).isSome = false := by
  decide

/-- C9 (amended): for every line all of whose characters are matchable by
`.` (no `\r`, U+2028, U+2029 — in particular every line obtained by
splitting a text without carriage returns on `\n`), a `MESSAGE_REGEX` match
implies a `SYSTEM_MESSAGE_REGEX` match, so classification of such lines is
decided solely by the fixed testing order. -/
theorem message_implies_system_on_dotlines (cs : List Char)
    (hdot : ∀ c ∈ cs, isDot c = true) (hm : (messageMatch cs).isSome = true) :
    (systemMatch cs).isSome = true := by
  unfold messageMatch at hm
  cases hhead : dtHead cs with
  | none => rw [hhead] at hm; simp at hm
  | some p =>
    obtain ⟨d, t, rest⟩ := p
    have hsuf : rest <:+ cs := dtHead_suffix hhead
    have hall : rest.all isDot = true := by
      rw [List.all_eq_true]
      intro c hc
      exact hdot c (hsuf.subset hc)
    unfold systemMatch
    rw [hhead]
    simp [hall]

theorem message_implies_system_witness :
    (∀ c ∈ "2/24/24, 21:56 - Alice: Hello".toList, isDot c = true) ∧
    (systemMatch "2/24/24, 21:56 - Alice: Hello".toList).isSome = true :=
  ⟨by decide,
   message_implies_system_on_dotlines "2/24/24, 21:56 - Alice: Hello".toList
     (by decide) (by decide)⟩

/-- C5: a line matching neither grammar never fails the parser: if a message
is open, the trimmed line is appended to its content after a newline; if no
message is open, the line is discarded (the state is unchanged).  `parse`
itself is a total function, so it returns a result on every input. -/
theorem parseStep_unmatched_line (st : ParserState) (line : List Char)
    (hm : messageMatch line = none) (hs : systemMatch line = none)
    (ht : jsTrim line ≠ []) :
    parseStep st line =
      match st.current with
      | some m =>
        { st with current := some { m with content := m.content ++ "\n" ++ (jsTrim line).asString } }
      | none => st := by
  unfold parseStep
  rw [hm, hs]
  cases st.current with
  | some m => simp [ht]
  | none => rfl

theorem parseStep_unmatched_line_witness :
    (messageMatch contLine = none ∧ systemMatch contLine = none ∧ jsTrim contLine ≠ []) ∧
    parseStep contState contLine =
      { contState with
          current := some { contMsg with
            content := contMsg.content ++ "\n" ++ (jsTrim contLine).asString } } :=
  ⟨⟨by decide, by decide, by decide⟩,
   parseStep_unmatched_line contState contLine (by decide) (by decide) (by decide)⟩

/-- C1: parsing the two-line input yields exactly two messages — Alice /
"Hello there!" and Bob (the leading `~ ` stripped) / "Hi! How are you?" in
that order — with participants ["Alice", "Bob"] and the two-participant
chat name "Alice & Bob". -/
theorem parse_example_two_senders (now : DateTime) :
    parse now "2/24/24, 21:56 - Alice: Hello there!\n2/24/24, 21:59 - ~ Bob: Hi! How are you?" =
      { messages :=
          [{ timestamp := ⟨2024, 1, 24, 21, 56⟩, sender := "Alice", content := "Hello there!" },
           { timestamp := ⟨2024, 1, 24, 21, 59⟩, sender := "Bob", content := "Hi! How are you?" }],
        metadata :=
          { name := "Alice & Bob",
            participants := ["Alice", "Bob"],
            messageCount := 2,
            drStart := ⟨2024, 1, 24, 21, 56⟩,
            drEnd := ⟨2024, 1, 24, 21, 59⟩ } } := by
  rfl

theorem putChat_fresh (c : ChatRecord) (l : List ChatRecord)
    (h : ∀ x ∈ l, x.id ≠ c.id) : putChat c l = l ++ [c] := by
  unfold putChat
  rw [if_neg]
  intro hcontra
  simp only [List.any_eq_true, beq_iff_eq] at hcontra
  obtain ⟨x, hx, hid⟩ := hcontra
  exact h x hx hid

theorem putMsg_fresh (m : MessageRecord) (l : List MessageRecord)
    (h : ∀ x ∈ l, x.id ≠ m.id) : putMsg m l = l ++ [m] := by
  unfold putMsg
  rw [if_neg]
  intro hcontra
  simp only [List.any_eq_true, beq_iff_eq] at hcontra
  obtain ⟨x, hx, hid⟩ := hcontra
  exact h x hx hid

theorem foldl_putMsg_fresh (recs : List MessageRecord) :
    ∀ acc : List MessageRecord,
      (∀ r ∈ recs, ∀ a ∈ acc, a.id ≠ r.id) →
      (recs.map (fun r => r.id)).Nodup →
      recs.foldl (fun acc r => putMsg r acc) acc = acc ++ recs := by
  induction recs with
  | nil => intro acc _ _; simp
  | cons r rest ih =>
    intro acc hfresh hnodup
    simp only [List.foldl_cons]
    rw [putMsg_fresh r acc (fun a ha => hfresh r (List.mem_cons_self r rest) a ha)]
    rw [ih (acc ++ [r]) ?_ ?_]
    · simp
    · intro r' hr' a ha
      rcases List.mem_append.mp ha with hacc | hr
      · exact hfresh r' (List.mem_cons_of_mem r hr') a hacc
      · have : a = r := by simpa using hr
        subst this
        simp only [List.map_cons, List.nodup_cons] at hnodup
        intro heq
        exact hnodup.1 (heq ▸ List.mem_map_of_mem (fun x => x.id) hr')
    · simp only [List.map_cons, List.nodup_cons] at hnodup
      exact hnodup.2

theorem mkMessageRecords_map_id (c : String) (msgs : List InputMessage) :
    ∀ k, (mkMessageRecords c k msgs).map (fun r => r.id) =
      (List.range' k msgs.length).map (mkMsgId c) := by
  induction msgs with
  | nil => intro k; simp [mkMessageRecords]
  | cons m rest ih => intro k; simp [mkMessageRecords, List.range', ih]

theorem mkMessageRecords_map_index (c : String) (msgs : List InputMessage) :
    ∀ k, (mkMessageRecords c k msgs).map (fun r => r.messageIndex) =
      List.range' k msgs.length := by
  induction msgs with
  | nil => intro k; simp [mkMessageRecords]
  | cons m rest ih => intro k; simp [mkMessageRecords, List.range', ih]

theorem mkMessageRecords_map_sender (c : String) (msgs : List InputMessage) :
    ∀ k, (mkMessageRecords c k msgs).map (fun r => r.sender) =
      msgs.map (fun m => m.sender) := by
  induction msgs with
  | nil => intro k; simp [mkMessageRecords]
  | cons m rest ih => intro k; simp [mkMessageRecords, ih]

theorem mkMessageRecords_map_content (c : String) (msgs : List InputMessage) :
    ∀ k, (mkMessageRecords c k msgs).map (fun r => r.content) =
      msgs.map (fun m => m.content) := by
  induction msgs with
  | nil => intro k; simp [mkMessageRecords]
  | cons m rest ih => intro k; simp [mkMessageRecords, ih]

theorem mkMessageRecords_map_timestamp (c : String) (msgs : List InputMessage) :
    ∀ k, (mkMessageRecords c k msgs).map (fun r => r.timestamp) =
      msgs.map (fun m => m.timestamp) := by
  induction msgs with
  | nil => intro k; simp [mkMessageRecords]
  | cons m rest ih => intro k; simp [mkMessageRecords, ih]

theorem mkMessageRecords_chatId (c : String) (msgs : List InputMessage) :
    ∀ k, ∀ r ∈ mkMessageRecords c k msgs, r.chatId = c := by
  induction msgs with
  | nil => intro k r hr; simp [mkMessageRecords] at hr
  | cons m rest ih =>
    intro k r hr
    simp only [mkMessageRecords, List.mem_cons] at hr
    rcases hr with rfl | hr
    · rfl
    · exact ih (k + 1) r hr

theorem mkMessageRecords_id_nodup (c : String) (msgs : List InputMessage) (k : Nat) :
    ((mkMessageRecords c k msgs).map (fun r => r.id)).Nodup := by
  rw [mkMessageRecords_map_id]
  exact (List.nodup_range' _ _).map (mkMsgId_injective c)

/-- C2: on a database holding no chat record with this id and no message
record of this chat (the fresh-import situation `storeChat` is specified
for), `storeChat` writes exactly one chat record — `messageCount = N`,
`lastMessageAt` the last input message's timestamp (the import time `now`
when `N = 0`) — and the stored messages of that chat are exactly the `N`
records whose position-`i` element has id `"<chatId>-<i>"`, `messageIndex =
i` and the sender/content/timestamp of input position `i`; the
`messageIndex` values are the dense sequence `0..N-1` in input order and
`messageCount` equals the number of stored message records. -/
theorem storeChat_dense_records (now : Int) (id name : String) (parts : List String)
    (msgs : List InputMessage) (raw : String) (db : DB)
    (hChats : ∀ c ∈ db.chats, c.id ≠ id)
    (hMsgs : ∀ m ∈ db.messages, m.chatId ≠ id ∧ ∀ i : Nat, m.id ≠ mkMsgId id i) :
    (storeChat now id name parts msgs raw db).chats.filter (fun c => c.id == id) =
      [{ id := id, name := name, participants := parts, createdAt := now,
         lastMessageAt := match msgs.getLast? with
           | some m => m.timestamp
           | none => now,
         messageCount := msgs.length, rawContent := raw }] ∧
    (storeChat now id name parts msgs raw db).messages.filter (fun m => m.chatId == id) =
      mkMessageRecords id 0 msgs ∧
    (mkMessageRecords id 0 msgs).map (fun r => r.messageIndex) = List.range msgs.length ∧
    (mkMessageRecords id 0 msgs).map (fun r => r.id) =
      (List.range msgs.length).map (mkMsgId id) ∧
    (mkMessageRecords id 0 msgs).map (fun r => r.sender) = msgs.map (fun m => m.sender) ∧
    (mkMessageRecords id 0 msgs).map (fun r => r.content) = msgs.map (fun m => m.content) ∧
    (mkMessageRecords id 0 msgs).map (fun r => r.timestamp) = msgs.map (fun m => m.timestamp) ∧
    ((storeChat now id name parts msgs raw db).messages.filter
        (fun m => m.chatId == id)).length = msgs.length := by
  have hmsgsEq : (storeChat now id name parts msgs raw db).messages =
      db.messages ++ mkMessageRecords id 0 msgs := by
    show (mkMessageRecords id 0 msgs).foldl (fun acc r => putMsg r acc) db.messages = _
    apply foldl_putMsg_fresh
    · intro r hr a ha
      have hmem : r.id ∈ (mkMessageRecords id 0 msgs).map (fun r => r.id) :=
        List.mem_map_of_mem _ hr
      rw [mkMessageRecords_map_id] at hmem
      obtain ⟨i, -, hi⟩ := List.mem_map.mp hmem
      rw [← hi]
      exact (hMsgs a ha).2 i
    · exact mkMessageRecords_id_nodup id msgs 0
  have hfilterMsgs : (storeChat now id name parts msgs raw db).messages.filter
      (fun m => m.chatId == id) = mkMessageRecords id 0 msgs := by
    rw [hmsgsEq, List.filter_append]
    have h1 : db.messages.filter (fun m => m.chatId == id) = [] := by
      rw [List.filter_eq_nil_iff]
      intro m hm
      simp only [beq_iff_eq]
      exact (hMsgs m hm).1
    have h2 : (mkMessageRecords id 0 msgs).filter (fun m => m.chatId == id) =
        mkMessageRecords id 0 msgs := by
      rw [List.filter_eq_self]
      intro r hr
      simp only [beq_iff_eq]
      exact mkMessageRecords_chatId id msgs 0 r hr
    rw [h1, h2, List.nil_append]
  refine ⟨?_, hfilterMsgs, ?_, ?_, mkMessageRecords_map_sender id msgs 0,
    mkMessageRecords_map_content id msgs 0, mkMessageRecords_map_timestamp id msgs 0, ?_⟩
  · have hchatsEq : (storeChat now id name parts msgs raw db).chats =
        db.chats ++ [({ id := id, name := name, participants := parts, createdAt := now,
                        lastMessageAt := (match msgs.getLast? with
                          | some m => m.timestamp
                          | none => now),
                        messageCount := msgs.length, rawContent := raw } : ChatRecord)] :=
      putChat_fresh _ db.chats (fun x hx => hChats x hx)
    rw [hchatsEq, List.filter_append]
    have h1 : db.chats.filter (fun c => c.id == id) = [] := by
      rw [List.filter_eq_nil_iff]
      intro c hc
      simp only [beq_iff_eq]
      exact hChats c hc
    rw [h1, List.nil_append]
    simp
  · rw [List.range_eq_range']
    exact mkMessageRecords_map_index id msgs 0
  · rw [List.range_eq_range']
    exact mkMessageRecords_map_id id msgs 0
  · rw [hfilterMsgs]
    have := congrArg List.length (mkMessageRecords_map_sender id msgs 0)
    simpa using this

theorem storeChat_dense_records_witness :
    (∀ c ∈ emptyDB.chats, c.id ≠ "c") ∧
    db3.messages.filter (fun m => m.chatId == "c") = mkMessageRecords "c" 0 in3 :=
  ⟨by simp [emptyDB],
   ((storeChat_dense_records 5 "c" "nm" ["A", "B"] in3 "raw" emptyDB
      (by simp [emptyDB]) (by simp [emptyDB])).2).1⟩

theorem deleteMsgKeys_filter (keys : List String) :
    ∀ l : List MessageRecord,
      deleteMsgKeys keys l = l.filter (fun m => decide (m.id ∉ keys)) := by
  induction keys with
  | nil => intro l; simp [deleteMsgKeys]
  | cons k ks ih =>
    intro l
    show deleteMsgKeys ks (l.filter (fun m => m.id ≠ k)) = _
    rw [ih, List.filter_filter]
    apply List.filter_congr
    intro m _
    by_cases h1 : m.id = k <;> by_cases h2 : m.id ∈ ks <;>
      simp [h1, h2, List.mem_cons]

theorem deleteBmKeys_filter (keys : List String) :
    ∀ l : List BookmarkRecord,
      deleteBmKeys keys l = l.filter (fun b => decide (b.id ∉ keys)) := by
  induction keys with
  | nil => intro l; simp [deleteBmKeys]
  | cons k ks ih =>
    intro l
    show deleteBmKeys ks (l.filter (fun b => b.id ≠ k)) = _
    rw [ih, List.filter_filter]
    apply List.filter_congr
    intro b _
    by_cases h1 : b.id = k <;> by_cases h2 : b.id ∈ ks <;>
      simp [h1, h2, List.mem_cons]

theorem deleteChat_messages (db : DB) (c : String)
    (hnodup : (db.messages.map (fun m => m.id)).Nodup) :
    (deleteChat c db).messages = db.messages.filter (fun m => !(m.chatId == c)) := by
  show deleteMsgKeys ((db.messages.filter (fun m => m.chatId == c)).map (fun m => m.id))
      db.messages = _
  rw [deleteMsgKeys_filter]
  apply List.filter_congr
  intro m hm
  by_cases hc : m.chatId = c
  · have hmem : m.id ∈ (db.messages.filter (fun m => m.chatId == c)).map (fun m => m.id) :=
      List.mem_map_of_mem _ (List.mem_filter.mpr ⟨hm, by simp [hc]⟩)
    simp [hc, hmem]
  · have hnotin : m.id ∉ (db.messages.filter (fun m => m.chatId == c)).map (fun m => m.id) := by
      intro hmem
      obtain ⟨m', hm', hid⟩ := List.mem_map.mp hmem
      have hm'l : m' ∈ db.messages := (List.mem_filter.mp hm').1
      have hm'c : m'.chatId = c := by
        have := (List.mem_filter.mp hm').2
        simpa using this
      have heq : m' = m := List.inj_on_of_nodup_map hnodup hm'l hm hid
      exact hc (heq ▸ hm'c)
    simp [hc, hnotin]

theorem deleteChat_bookmarks (db : DB) (c : String)
    (hnodup : (db.bookmarks.map (fun b => b.id)).Nodup) :
    (deleteChat c db).bookmarks = db.bookmarks.filter (fun b => !(b.chatId == c)) := by
  show deleteBmKeys ((db.bookmarks.filter (fun b => b.chatId == c)).map (fun b => b.id))
      db.bookmarks = _
  rw [deleteBmKeys_filter]
  apply List.filter_congr
  intro b hb
  by_cases hc : b.chatId = c
  · have hmem : b.id ∈ (db.bookmarks.filter (fun b => b.chatId == c)).map (fun b => b.id) :=
      List.mem_map_of_mem _ (List.mem_filter.mpr ⟨hb, by simp [hc]⟩)
    simp [hc, hmem]
  · have hnotin : b.id ∉ (db.bookmarks.filter (fun b => b.chatId == c)).map (fun b => b.id) := by
      intro hmem
      obtain ⟨b', hb', hid⟩ := List.mem_map.mp hmem
      have hb'l : b' ∈ db.bookmarks := (List.mem_filter.mp hb').1
      have hb'c : b'.chatId = c := by
        have := (List.mem_filter.mp hb').2
        simpa using this
      have heq : b' = b := List.inj_on_of_nodup_map hnodup hb'l hb hid
      exact hc (heq ▸ hb'c)
    simp [hc, hnotin]

/-- C3: on any database whose message and bookmark primary keys are unique
(the IndexedDB store invariant), after `deleteChat id` no message and no
bookmark with that `chatId` remains retrievable — `getAllMessagesForChat`
and `getBookmarksForChat` both return `[]` for that id — the deleted chat's
record is gone, and the message/bookmark sets of every other chat are
unchanged. -/
theorem deleteChat_cascade (db : DB) (c : String)
    (hm : (db.messages.map (fun m => m.id)).Nodup)
    (hb : (db.bookmarks.map (fun b => b.id)).Nodup) :
    getAllMessagesForChat (deleteChat c db) c = [] ∧
    getBookmarksForChat (deleteChat c db) c = [] ∧
    (deleteChat c db).chats = db.chats.filter (fun x => x.id ≠ c) ∧
    (∀ c', c' ≠ c →
      getAllMessagesForChat (deleteChat c db) c' = getAllMessagesForChat db c' ∧
      getBookmarksForChat (deleteChat c db) c' = getBookmarksForChat db c') := by
  have hmsg := deleteChat_messages db c hm
  have hbm := deleteChat_bookmarks db c hb
  refine ⟨?_, ?_, rfl, ?_⟩
  · unfold getAllMessagesForChat
    rw [hmsg, List.filter_filter, List.filter_eq_nil_iff]
    intro m _
    by_cases h : m.chatId = c <;> simp [h]
  · unfold getBookmarksForChat
    rw [hbm, List.filter_filter, List.filter_eq_nil_iff]
    intro b _
    by_cases h : b.chatId = c <;> simp [h]
  · intro c' hc'
    constructor
    · unfold getAllMessagesForChat
      rw [hmsg, List.filter_filter]
      apply List.filter_congr
      intro m _
      by_cases h2 : m.chatId = c'
      · simp [h2, hc']
      · simp [h2]
    · unfold getBookmarksForChat
      rw [hbm, List.filter_filter]
      apply List.filter_congr
      intro b _
      by_cases h2 : b.chatId = c'
      · simp [h2, hc']
      · simp [h2]

theorem deleteChat_cascade_witness :
    ((dbDel.messages.map (fun m => m.id)).Nodup ∧
      (dbDel.bookmarks.map (fun b => b.id)).Nodup) ∧
    getAllMessagesForChat (deleteChat "a" dbDel) "a" = [] ∧
    getBookmarksForChat (deleteChat "a" dbDel) "a" = [] :=
  ⟨⟨by decide, by decide⟩,
   (deleteChat_cascade dbDel "a" (by decide) (by decide)).1,
   ((deleteChat_cascade dbDel "a" (by decide) (by decide)).2).1⟩

theorem collectLoop_take (limit : Nat) :
    ∀ (l : List MessageRecord) (count iters : Nat),
      collectLoop limit l count iters = l.take (min (limit - count) (10000 - iters)) := by
  intro l
  induction l with
  | nil => intro count iters; simp [collectLoop]
  | cons m rest ih =>
    intro count iters
    rw [collectLoop]
    by_cases h : count < limit ∧ iters < 10000
    · rw [if_pos h, ih (count + 1) (iters + 1),
        show min (limit - count) (10000 - iters)
          = min (limit - (count + 1)) (10000 - (iters + 1)) + 1 from by omega,
        List.take_succ_cons]
    · rw [if_neg h, show min (limit - count) (10000 - iters) = 0 from by omega,
        List.take_zero]

theorem sortByIdx_sorted (msgs : List MessageRecord) :
    ∀ k, msgs.map (fun m => m.messageIndex) = List.range' k msgs.length →
      sortByIdx msgs = msgs := by
  induction msgs with
  | nil => intro k _; rfl
  | cons m rest ih =>
    intro k h
    rw [show List.range' k (m :: rest).length = k :: List.range' (k + 1) rest.length
      from by simp [List.range']] at h
    simp only [List.map_cons, List.cons.injEq] at h
    obtain ⟨h1, h2⟩ := h
    show insertByIdx m (sortByIdx rest) = m :: rest
    rw [ih (k + 1) h2]
    cases rest with
    | nil => rfl
    | cons n rest' =>
      have hn : n.messageIndex = k + 1 := by
        rw [show List.range' (k + 1) (n :: rest').length
          = (k + 1) :: List.range' (k + 2) rest'.length from by simp [List.range']] at h2
        simp only [List.map_cons, List.cons.injEq] at h2
        exact h2.1
      rw [insertByIdx, if_pos (by rw [h1, hn]; omega)]

theorem filter_ge_drop (msgs : List MessageRecord) :
    ∀ k offset : Nat, msgs.map (fun m => m.messageIndex) = List.range' k msgs.length →
      msgs.filter (fun m => offset ≤ m.messageIndex) = msgs.drop (offset - k) := by
  induction msgs with
  | nil => intro k offset _; simp
  | cons m rest ih =>
    intro k offset h
    rw [show List.range' k (m :: rest).length = k :: List.range' (k + 1) rest.length
      from by simp [List.range']] at h
    simp only [List.map_cons, List.cons.injEq] at h
    obtain ⟨h1, h2⟩ := h
    rw [List.filter_cons]
    by_cases hok : offset ≤ k
    · rw [h1, ih (k + 1) offset h2, show offset - (k + 1) = 0 from by omega,
        show offset - k = 0 from by omega, List.drop_zero, List.drop_zero]
      simp [hok]
    · rw [h1, ih (k + 1) offset h2,
        show offset - k = (offset - (k + 1)) + 1 from by omega, List.drop_succ_cons]
      simp [hok]

theorem range'_drop_eq (k : Nat) :
    ∀ s n : Nat, (List.range' s n).drop k = List.range' (s + k) (n - k) := by
  induction k with
  | zero => intro s n; simp
  | succ k ih =>
    intro s n
    cases n with
    | zero => simp [List.range']
    | succ n =>
      rw [show List.range' s (n + 1) = s :: List.range' (s + 1) n from by simp [List.range'],
        List.drop_succ_cons, ih (s + 1) n,
        show s + 1 + k = s + (k + 1) from by omega,
        show n - k = n + 1 - (k + 1) from by omega]

theorem range'_take_eq (k : Nat) :
    ∀ s n : Nat, (List.range' s n).take k = List.range' s (min k n) := by
  induction k with
  | zero => intro s n; simp
  | succ k ih =>
    intro s n
    cases n with
    | zero => simp [List.range']
    | succ n =>
      rw [show List.range' s (n + 1) = s :: List.range' (s + 1) n from by simp [List.range'],
        List.take_succ_cons, ih (s + 1) n,
        show min (k + 1) (n + 1) = min k n + 1 from by omega,
        show List.range' s (min k n + 1) = s :: List.range' (s + 1) (min k n)
          from by simp [List.range']]

theorem getMessages_length_le (db : DB) (c : String) (limit offset : Nat) :
    (getMessages db c limit offset).length ≤ 10000 := by
  unfold getMessages
  rw [collectLoop_take]
  refine le_trans (List.length_take_le _ _) (by omega)

/-- C4 (counterexample): on a chat with 10001 messages at dense indexes
0..10000, `getMessages(chatId, limit := 10001, offset := 0)` does NOT return
all messages with `messageIndex` in `[0, min(0 + 10001, 10001)) = [0, 10001)`
— the `MAX_ITERATIONS = 10000` cursor ceiling stops the loop after 10000
records, so the claimed window equality fails for `limit > 10000`. -/
theorem getMessages_limit_ceiling_cex :
    getMessages bigDb "c" 10001 0 ≠ bigDb.messages := by
  intro h
  have hlen := congrArg List.length h
  have hle : (getMessages bigDb "c" 10001 0).length ≤ 10000 :=
    getMessages_length_le bigDb "c" 10001 0
  have hbig : bigDb.messages.length = 10001 := by simp [bigDb]
  omega

/-- C4 (amended): for a stored chat with messages at dense indexes 0..N-1
and all `limit, offset ≥ 0`, `getMessages(chatId, limit, offset)` returns
exactly the messages with `messageIndex` in
`[offset, min(offset + min(limit, 10000), N))`, in increasing `messageIndex`
order — i.e. the claimed window, with `limit` additionally clamped by the
`MAX_ITERATIONS = 10000` defensive cursor ceiling (so for `limit ≤ 10000`,
exactly the claimed `[offset, min(offset + limit, N))` window; in
particular, 3 messages with `limit = 2, offset = 1` yield indexes 1 and 2). -/
theorem getMessages_window (db : DB) (c : String) (limit offset : Nat)
    (msgs : List MessageRecord)
    (hf : db.messages.filter (fun m => m.chatId == c) = msgs)
    (hi : msgs.map (fun m => m.messageIndex) = List.range msgs.length) :
    getMessages db c limit offset = (msgs.drop offset).take (min limit 10000) ∧
    (getMessages db c limit offset).map (fun m => m.messageIndex) =
      List.range' offset (min (min limit 10000) (msgs.length - offset)) := by
  have hi' : msgs.map (fun m => m.messageIndex) = List.range' 0 msgs.length :=
    hi.trans (List.range_eq_range' _)
  have hmain : getMessages db c limit offset = (msgs.drop offset).take (min limit 10000) := by
    unfold getMessages
    rw [hf, sortByIdx_sorted msgs 0 hi', filter_ge_drop msgs 0 offset hi', collectLoop_take]
    simp
  refine ⟨hmain, ?_⟩
  rw [hmain, List.map_take, List.map_drop, hi', range'_drop_eq, range'_take_eq]
  simp

theorem getMessages_window_witness :
    (db3.messages.filter (fun m => m.chatId == "c") = mkMessageRecords "c" 0 in3) ∧
    getMessages db3 "c" 2 1 = ((mkMessageRecords "c" 0 in3).drop 1).take (min 2 10000) :=
  ⟨by decide,
   (getMessages_window db3 "c" 2 1 (mkMessageRecords "c" 0 in3) (by decide) (by decide)).1⟩

theorem jsTrim_eq_nil_iff (cs : List Char) : jsTrim cs = [] ↔ ∀ c ∈ cs, isWs c = true := by
  unfold jsTrim
  constructor
  · intro h c hc
    rw [List.reverse_eq_nil_iff, List.dropWhile_eq_nil_iff] at h
    have hc' : c ∈ cs.takeWhile isWs ++ cs.dropWhile isWs := by
      rw [List.takeWhile_append_dropWhile]
      exact hc
    rcases List.mem_append.mp hc' with h1 | h2
    · exact List.mem_takeWhile_imp h1
    · exact h c (List.mem_reverse.mpr h2)
  · intro h
    have h1 : cs.dropWhile isWs = [] :=
      List.dropWhile_eq_nil_iff.mpr (fun a ha => h a ha)
    rw [h1]
    rfl

theorem mem_splitSep (sep : Char) (cs : List Char) (c : Char) :
    c ∈ cs → c ≠ sep → ∃ l ∈ splitSep sep cs, c ∈ l := by
  induction cs with
  | nil => intro hc _; cases hc
  | cons x rest ih =>
    intro hc hne
    rw [splitSep]
    rcases List.mem_cons.mp hc with rfl | hrest
    · rw [if_neg hne]
      cases hsplit : splitSep sep rest with
      | nil => exact ⟨[c], by simp, by simp⟩
      | cons l ls => exact ⟨c :: l, by simp, by simp⟩
    · by_cases hx : x = sep
      · rw [if_pos hx]
        obtain ⟨l, hl, hcl⟩ := ih hrest hne
        exact ⟨l, List.mem_cons_of_mem _ hl, hcl⟩
      · rw [if_neg hx]
        obtain ⟨l, hl, hcl⟩ := ih hrest hne
        cases hsplit : splitSep sep rest with
        | nil =>
          rw [hsplit] at hl
          cases hl
        | cons l0 ls =>
          rw [hsplit] at hl
          rcases List.mem_cons.mp hl with rfl | hl2
          · exact ⟨x :: l, by simp, List.mem_cons_of_mem _ hcl⟩
          · exact ⟨l, by simp [hl2], hcl⟩

theorem contentLines_ne_nil (cs : List Char) (h : jsTrim cs ≠ []) :
    contentLines cs ≠ [] := by
  have hex : ∃ c ∈ cs, ¬ isWs c = true := by
    by_contra hall
    push_neg at hall
    exact h ((jsTrim_eq_nil_iff cs).mpr hall)
  obtain ⟨c, hc, hcws⟩ := hex
  have hne : c ≠ '\n' := by
    intro heq
    exact hcws (by rw [heq]; decide)
  obtain ⟨l, hl, hcl⟩ := mem_splitSep '\n' cs c hc hne
  have hlt : jsTrim l ≠ [] := by
    intro hnil
    exact hcws ((jsTrim_eq_nil_iff l).mp hnil c hcl)
  intro hempty
  have hmem : l ∈ contentLines cs :=
    List.mem_filter.mpr ⟨hl, by simp [hlt]⟩
  rw [hempty] at hmem
  cases hmem

/-- C6: `validate` returns `isValid = false` with the empty-content error
when the trimmed content is empty; otherwise, over the first at-most-50
non-empty lines, `isValid = true` iff the matching fraction is at least 0.3
and at least one line matches, and when invalid the ratio-below-threshold
condition and the no-matching-line condition each contribute their own
error entries. -/
theorem validate_spec (content : String) :
    (jsTrim content.toList = [] →
      validate content = { isValid := false, errors := [VError.contentEmpty] }) ∧
    (jsTrim content.toList ≠ [] →
      ((validate content).isValid = true ↔
        (3 * (sampleCounts (contentLines content.toList)).1 ≤
            10 * (sampleCounts (contentLines content.toList)).2 ∧
          0 < (sampleCounts (contentLines content.toList)).2)) ∧
      (10 * (sampleCounts (contentLines content.toList)).2 <
          3 * (sampleCounts (contentLines content.toList)).1 →
        VError.notExport ∈ (validate content).errors ∧
        VError.ratioDetail (sampleCounts (contentLines content.toList)).2
            (sampleCounts (contentLines content.toList)).1 ∈ (validate content).errors) ∧
      ((sampleCounts (contentLines content.toList)).2 = 0 →
        VError.noValidFormat ∈ (validate content).errors ∧
        VError.formatHint ∈ (validate content).errors)) := by
  constructor
  · intro h
    unfold validate
    rw [if_pos h]
  · intro h
    have hlines : contentLines content.toList ≠ [] := contentLines_ne_nil _ h
    have hlen : ¬ (contentLines content.toList).length = 0 := by
      simpa [List.length_eq_zero] using hlines
    unfold validate
    rw [if_neg h, if_neg hlen]
    by_cases h1 : 10 * (sampleCounts (contentLines content.toList)).2 <
        3 * (sampleCounts (contentLines content.toList)).1 <;>
      by_cases h2 : (sampleCounts (contentLines content.toList)).2 = 0 <;>
        simp [h1, h2] <;> omega

theorem validate_spec_witness :
    jsTrim junkText.toList ≠ [] ∧
    ((validate junkText).isValid = true ↔
      (3 * (sampleCounts (contentLines junkText.toList)).1 ≤
          10 * (sampleCounts (contentLines junkText.toList)).2 ∧
        0 < (sampleCounts (contentLines junkText.toList)).2)) :=
  ⟨by decide, ((validate_spec junkText).2 (by decide)).1⟩

theorem cacheGet_del (k : String) (c : List (String × List MessageRecord)) :
    cacheGet k (cacheDel k c) = none := by
  have hfind : (cacheDel k c).find? (fun p => p.1 == k) = none := by
    rw [List.find?_eq_none]
    intro p hp
    have := (List.mem_filter.mp hp).2
    simpa using this
  unfold cacheGet
  rw [hfind]
  rfl

theorem not_mem_filter_ne (k : String) (l : List String) :
    k ∉ l.filter (fun x => x ≠ k) := by
  intro hmem
  have := (List.mem_filter.mp hmem).2
  simp at this

/-- C7 (counterexample): with a stale cached list for chat `"c"` and a
failing fetch, `loadMessages` evicts the cache entry but RESOLVES — the
`catch` block logs and clears the cache without rethrowing, so the returned
promise does not reject, contradicting the claim's "surfaces the error to
its caller". -/
theorem loadMessages_error_resolves_cex :
    (loadMessages "c" true (Except.error "boom") stCached).2 = Except.ok () ∧
    cacheGet "c" (loadMessages "c" true (Except.error "boom") stCached).1.messageCache = none := by
  constructor <;> rfl

/-- C7 (amended): when the fetch fails or times out (and the call is not
short-circuited by the in-flight guard or a cache hit), `loadMessages`
evicts the message-cache entry for that chatId, clears the loading state,
and resolves — the error is only logged, never rethrown to the caller. -/
theorem loadMessages_error_evicts (st : StoreState) (chatId e : String) (force : Bool)
    (hload : st.loadingStates.contains chatId = false)
    (hpath : force = true ∨ cacheGet chatId st.messageCache = none) :
    cacheGet chatId (loadMessages chatId force (Except.error e) st).1.messageCache = none ∧
    (loadMessages chatId force (Except.error e) st).2 = Except.ok () ∧
    chatId ∉ (loadMessages chatId force (Except.error e) st).1.loadingStates ∧
    (loadMessages chatId force (Except.error e) st).1.isLoading = false := by
  have hmem : chatId ∉ st.loadingStates := by simpa using hload
  rcases hpath with hf | hcg
  · subst hf
    cases hcg2 : cacheGet chatId st.messageCache with
    | none => simp [loadMessages, hmem, hcg2, cacheGet_del, not_mem_filter_ne]
    | some cached => simp [loadMessages, hmem, hcg2, cacheGet_del, not_mem_filter_ne]
  · cases force <;> simp [loadMessages, hmem, hcg, cacheGet_del, not_mem_filter_ne]

theorem loadMessages_error_evicts_witness :
    stFresh.loadingStates.contains "c" = false ∧
    cacheGet "c" (loadMessages "c" false (Except.error "boom") stFresh).1.messageCache = none ∧
    (loadMessages "c" false (Except.error "boom") stFresh).2 = Except.ok () :=
  ⟨by decide,
   (loadMessages_error_evicts stFresh "c" "boom" false (by decide) (Or.inr (by decide))).1,
   ((loadMessages_error_evicts stFresh "c" "boom" false (by decide) (Or.inr (by decide))).2).1⟩

/-- C8 (counterexample): starting from a fresh state (no active chat, no
cache) with a failing message load, `switchToChat "c"` leaves the
active-chat pointer at `some "c"` and resolves — there is no rollback to
empty, because `loadMessages` swallows the fetch error. -/
theorem switchToChat_no_rollback_cex :
    (switchToChat "c" (Except.error "boom") stFresh).1.currentChatId = some "c" ∧
    (switchToChat "c" (Except.error "boom") stFresh).2 = Except.ok () := by
  constructor <;> rfl

/-- C8 (amended): `switchToChat` unconditionally sets the active-chat
pointer to the requested chat and triggers `loadMessages`; for every prior
state and every fetch outcome (success or failure) the pointer ends at
`some chatId` and the returned promise resolves — there is no idempotence
guard and no rollback-to-empty on failure. -/
theorem switchToChat_sets_pointer (st : StoreState) (chatId : String)
    (fetch : Except String (List MessageRecord)) :
    (switchToChat chatId fetch st).1.currentChatId = some chatId ∧
    (switchToChat chatId fetch st).2 = Except.ok () := by
  have hload : ∀ (s : StoreState) (f : Bool) (r : Except String (List MessageRecord)),
      (loadMessages chatId f r s).1.currentChatId = s.currentChatId ∧
      (loadMessages chatId f r s).2 = Except.ok () := by
    intro s f r
    unfold loadMessages
    split
    · exact ⟨rfl, rfl⟩
    · split
      · exact ⟨rfl, rfl⟩
      · cases r <;> exact ⟨rfl, rfl⟩
  unfold switchToChat
  exact ⟨(hload _ false fetch).1.trans rfl, (hload _ false fetch).2⟩

/-- C10: for a chat with zero stored messages, `getChatStats` resolves with
`messageCount = 0`, an empty participant tally, `averageMessagesPerDay = 0`,
and an inverted date range — start is the current time, end is the Unix
epoch (`new Date(0)`), so start is after end — because the min/max
accumulators are never updated. -/
theorem getChatStats_empty_chat (db : DB) (chatId : String) (now : Int)
    (hempty : getAllMessagesForChat db chatId = []) (hnow : 0 < now) :
    getChatStats now (getAllMessagesForChat db chatId) =
      { messageCount := 0, participantStats := [], drStart := now, drEnd := 0,
        averageMessagesPerDay := 0 } ∧
    (getChatStats now (getAllMessagesForChat db chatId)).drEnd <
      (getChatStats now (getAllMessagesForChat db chatId)).drStart := by
  rw [hempty]
  constructor
  · unfold getChatStats
    simp
  · unfold getChatStats
    simpa using hnow

theorem getChatStats_empty_chat_witness :
    (getAllMessagesForChat emptyDB "c" = [] ∧ (0 : Int) < 1000) ∧
    getChatStats 1000 (getAllMessagesForChat emptyDB "c") =
      { messageCount := 0, participantStats := [], drStart := 1000, drEnd := 0,
        averageMessagesPerDay := 0 } :=
  ⟨⟨by decide, by decide⟩,
   (getChatStats_empty_chat emptyDB "c" 1000 (by decide) (by decide)).1⟩
